import Mathlib

/-!
Shallow embedding of `mint.hpp` (efficios/mint), a converter from a
small inline markup language to ANSI/SGR terminal escape sequences.
Input strings are modelled as `List Char`, the parser's output stream
as an accumulated `List Char`, and fallible operations return
`Except String`.  All definitions are translated from `src/mint.hpp`.
The scanning loops of the source are embedded as structurally recursive
functions over an explicit recursion budget (`fuel`); every wrapper
instantiates the budget with the input length, which always suffices
because each iteration consumes at least one input character.
-/

deriving instance DecidableEq for Except

namespace Mint

/-- Character code 92, a backslash. -/
def backslashChar : Char := Char.ofNat 92

/-- Character code 39, a single quote (the italic specifier). -/
def quoteChar : Char := Char.ofNat 39

/-- Character code 27, the ESC character written `\033` in the source. -/
def escChar : Char := Char.ofNat 27

/-- `TrueColor` from mint.hpp: an RGB triplet of 8-bit components. -/
structure TrueColor where
  r : Nat
  g : Nat
  b : Nat
deriving DecidableEq

/-- `StackFrame` from mint.hpp: the style attributes of one nesting
level.  The color-offset and true-color fields are meaningful only when
the corresponding `has*` flag is set (in C++ they are uninitialized
otherwise; here they default to zero). -/
@[ext]
structure StackFrame where
  hasBold : Bool := false
  hasDim : Bool := false
  hasUnderline : Bool := false
  hasItalic : Bool := false
  hasReverse : Bool := false
  hasBright : Bool := false
  hasFgColor : Bool := false
  fgColorCodeOffset : Nat := 0
  hasBgColor : Bool := false
  bgColorCodeOffset : Nat := 0
  hasFgTrueColor : Bool := false
  fgTrueColor : TrueColor := ⟨0, 0, 0⟩
  hasBgTrueColor : Bool := false
  bgTrueColor : TrueColor := ⟨0, 0, 0⟩
deriving DecidableEq

/-- `StackFrame::setFgColor`. -/
def StackFrame.setFgColor (f : StackFrame) (colorCodeOffset : Nat) : StackFrame :=
  { f with hasFgColor := true, fgColorCodeOffset := colorCodeOffset }

/-- `StackFrame::setBgColor`. -/
def StackFrame.setBgColor (f : StackFrame) (colorCodeOffset : Nat) : StackFrame :=
  { f with hasBgColor := true, bgColorCodeOffset := colorCodeOffset }

/-- `StackFrame::setFgTrueColor`. -/
def StackFrame.setFgTrueColor (f : StackFrame) (color : TrueColor) : StackFrame :=
  { f with hasFgTrueColor := true, fgTrueColor := color }

/-- `StackFrame::setBgTrueColor`. -/
def StackFrame.setBgTrueColor (f : StackFrame) (color : TrueColor) : StackFrame :=
  { f with hasBgTrueColor := true, bgTrueColor := color }

/-- The default frame `StackFrame {}` (all attributes off). -/
def defaultFrame : StackFrame := {}

/-- `using Stack = std::array<StackFrame, 5>`: the stack capacity. -/
def stackCapacity : Nat := 5

/-- The "empty opening tag" test from `Parser::_parseOpenTag`. -/
def frameIsEmpty (f : StackFrame) : Bool :=
  !f.hasBold && !f.hasDim && !f.hasUnderline && !f.hasItalic &&
    !f.hasReverse && !f.hasBright && !f.hasFgColor && !f.hasBgColor &&
    !f.hasFgTrueColor && !f.hasBgTrueColor

/-- `Parser::_hexDigitValue`. -/
def hexDigitValue (c : Char) : Except String Nat :=
  if '0' ≤ c && c ≤ '9' then .ok (c.toNat - '0'.toNat)
  else if 'a' ≤ c && c ≤ 'f' then .ok (c.toNat - 'a'.toNat + 10)
  else if 'A' ≤ c && c ≤ 'F' then .ok (c.toNat - 'A'.toNat + 10)
  else .error "Invalid hex digit"

/-- `Parser::_tryParseHexColor`: consume exactly six hex digits. -/
def tryParseHexColor (s : List Char) : Except String (TrueColor × List Char) :=
  match s with
  | c0 :: c1 :: c2 :: c3 :: c4 :: c5 :: rest =>
    match hexDigitValue c0, hexDigitValue c1, hexDigitValue c2, hexDigitValue c3,
        hexDigitValue c4, hexDigitValue c5 with
    | .ok d0, .ok d1, .ok d2, .ok d3, .ok d4, .ok d5 =>
      .ok (⟨(d0 <<< 4) ||| d1, (d2 <<< 4) ||| d3, (d4 <<< 4) ||| d5⟩, rest)
    | _, _, _, _, _, _ => .error "Invalid hex digit"
  | _ => .error "Expecting six hex digits for true color"

/-- The switch of `Parser::_tryParseBasicColor`: color letter to ANSI
color offset. -/
def colorLetterOffset (c : Char) : Option Nat :=
  if c = 'd' then some 9
  else if c = 'k' then some 0
  else if c = 'r' then some 1
  else if c = 'g' then some 2
  else if c = 'y' then some 3
  else if c = 'b' then some 4
  else if c = 'm' then some 5
  else if c = 'c' then some 6
  else if c = 'w' then some 7
  else none

/-- `Parser::_tryParseBasicColor`. -/
def tryParseBasicColor (s : List Char) : Except String (Nat × List Char) :=
  match s with
  | [] => .error "Expecting color letter"
  | c :: rest =>
    match colorLetterOffset c with
    | some off => .ok (off, rest)
    | none => .error ("Unknown color letter `" ++ String.singleton c ++ "`")

theorem tryParseHexColor_length {s r : List Char} {col : TrueColor}
    (h : tryParseHexColor s = .ok (col, r)) : r.length + 6 = s.length := by
  match s with
  | [] => simp [tryParseHexColor] at h
  | [_] => simp [tryParseHexColor] at h
  | [_, _] => simp [tryParseHexColor] at h
  | [_, _, _] => simp [tryParseHexColor] at h
  | [_, _, _, _] => simp [tryParseHexColor] at h
  | [_, _, _, _, _] => simp [tryParseHexColor] at h
  | c0 :: c1 :: c2 :: c3 :: c4 :: c5 :: rest =>
    simp only [tryParseHexColor] at h
    split at h <;> simp_all

theorem tryParseBasicColor_length {s r : List Char} {off : Nat}
    (h : tryParseBasicColor s = .ok (off, r)) : r.length + 1 = s.length := by
  match s with
  | [] => simp [tryParseBasicColor] at h
  | c :: rest =>
    simp only [tryParseBasicColor] at h
    split at h <;> simp_all

/-- `frame.hasBold = true` in `Parser::_parseOpenTag`. -/
def StackFrame.withBold (f : StackFrame) : StackFrame := { f with hasBold := true }

/-- `frame.hasDim = true` in `Parser::_parseOpenTag`. -/
def StackFrame.withDim (f : StackFrame) : StackFrame := { f with hasDim := true }

/-- `frame.hasUnderline = true` in `Parser::_parseOpenTag`. -/
def StackFrame.withUnderline (f : StackFrame) : StackFrame := { f with hasUnderline := true }

/-- `frame.hasItalic = true` in `Parser::_parseOpenTag`. -/
def StackFrame.withItalic (f : StackFrame) : StackFrame := { f with hasItalic := true }

/-- `frame.hasReverse = true` in `Parser::_parseOpenTag`. -/
def StackFrame.withReverse (f : StackFrame) : StackFrame := { f with hasReverse := true }

/-- `frame.hasBright = true` in `Parser::_parseOpenTag`. -/
def StackFrame.withBright (f : StackFrame) : StackFrame := { f with hasBright := true }

/-- One non-`]` iteration of the tag-content loop of
`Parser::_parseOpenTag`: consume the specifier starting with `c` (with
`rest` following it) and update `frame` accordingly. -/
def parseOpenTagStep (c : Char) (rest : List Char) (frame : StackFrame) :
    Except String (StackFrame × List Char) :=
  if c = ' ' then .ok (frame, rest)
  else if c = '!' then .ok (frame.withBold, rest)
  else if c = '-' then .ok (frame.withDim, rest)
  else if c = '_' then .ok (frame.withUnderline, rest)
  else if c = quoteChar then .ok (frame.withItalic, rest)
  else if c = '^' then .ok (frame.withReverse, rest)
  else if c = '*' then .ok (frame.withBright, rest)
  else if c = ':' then
    match rest with
    | '#' :: rest2 =>
      match tryParseHexColor rest2 with
      | .ok (color, rest3) => .ok (frame.setBgTrueColor color, rest3)
      | .error e => .error e
    | _ =>
      match tryParseBasicColor rest with
      | .ok (off, rest2) => .ok (frame.setBgColor off, rest2)
      | .error e => .error e
  else if c = '#' then
    match tryParseHexColor rest with
    | .ok (color, rest2) => .ok (frame.setFgTrueColor color, rest2)
    | .error e => .error e
  else
    match tryParseBasicColor (c :: rest) with
    | .ok (off, rest2) => .ok (frame.setFgColor off, rest2)
    | .error e => .error e

/-- The tag-content loop of `Parser::_parseOpenTag`, structurally
recursive over a fuel bound. -/
def parseOpenTagBodyF : Nat → List Char → StackFrame → Except String (StackFrame × List Char)
  | _, [], _ => .error "Expecting `]` to terminate the opening tag"
  | 0, _ :: _, _ => .error "out of fuel"
  | fuel + 1, c :: rest, frame =>
    if c = ']' then
      if frameIsEmpty frame then .error "Empty opening tag"
      else .ok (frame, rest)
    else
      match parseOpenTagStep c rest frame with
      | .ok (frame2, rest2) => parseOpenTagBodyF fuel rest2 frame2
      | .error e => .error e

/-- The tag-content loop of `Parser::_parseOpenTag`, entered just after
the opening `[`; consumes up to and including the terminating `]`.  The
recursion budget `s.length` always suffices because every iteration
consumes at least one character. -/
def parseOpenTagBody (s : List Char) (frame : StackFrame) :
    Except String (StackFrame × List Char) :=
  parseOpenTagBodyF s.length s frame

theorem parseOpenTagStep_length {c : Char} {rest : List Char} {frame fr : StackFrame}
    {r : List Char} (h : parseOpenTagStep c rest frame = .ok (fr, r)) :
    r.length ≤ rest.length := by
  simp only [parseOpenTagStep] at h
  iterate 16 (all_goals try split at h)
  all_goals cases h
  all_goals try exact Nat.le_refl _
  all_goals rename_i heq
  all_goals first
    | (have hl := tryParseHexColor_length heq
       simp only [List.length_cons] at hl ⊢
       omega)
    | (have hl := tryParseBasicColor_length heq
       simp only [List.length_cons] at hl ⊢
       omega)

theorem parseOpenTagBodyF_length :
    ∀ (fuel : Nat) (s : List Char) (frame : StackFrame) {fr : StackFrame} {r : List Char},
      parseOpenTagBodyF fuel s frame = .ok (fr, r) → r.length < s.length := by
  intro fuel
  induction fuel with
  | zero =>
    intro s frame fr r h
    match s with
    | [] => simp [parseOpenTagBodyF] at h
    | c :: rest => simp [parseOpenTagBodyF] at h
  | succ fuel ih =>
    intro s frame fr r h
    match s with
    | [] => simp [parseOpenTagBodyF] at h
    | c :: rest =>
      simp only [parseOpenTagBodyF] at h
      by_cases h1 : c = ']'
      · simp only [if_pos h1] at h
        split at h
        · cases h
        · cases h; simp
      · simp only [if_neg h1] at h
        split at h
        · rename_i frame2 rest2 heq
          have hstep := parseOpenTagStep_length heq
          have hrec := ih _ _ h
          simp only [List.length_cons]
          omega
        · cases h

theorem parseOpenTagBody_length {s : List Char} {frame fr : StackFrame} {r : List Char}
    (h : parseOpenTagBody s frame = .ok (fr, r)) : r.length < s.length :=
  parseOpenTagBodyF_length s.length s frame h

/-- The slash-counting loop of the closing-tag branch of
`Parser::_parse`: the count of leading `/` characters and the rest. -/
def countSlashes : List Char → Nat × List Char
  | [] => (0, [])
  | c :: rest =>
    if c = '/' then
      let p := countSlashes rest
      (p.1 + 1, p.2)
    else (0, c :: rest)

theorem countSlashes_length :
    ∀ (s : List Char) {n : Nat} {r : List Char},
      countSlashes s = (n, r) → r.length + n = s.length := by
  intro s
  induction s with
  | nil => intro n r h; simp only [countSlashes] at h; cases h; simp
  | cons c rest ih =>
    intro n r h
    simp only [countSlashes] at h
    split at h
    · cases h
      have h2 := ih (rfl : countSlashes rest = ((countSlashes rest).1, (countSlashes rest).2))
      simp only [List.length_cons]
      omega
    · cases h; simp

/-- Decimal digit accumulation, structurally recursive over a fuel
bound; models `std::ostream::operator<<` for the nonnegative ints of
the source. -/
def natCharsCore : Nat → Nat → List Char → List Char
  | 0, _, acc => acc
  | fuel + 1, n, acc =>
    if n < 10 then Char.ofNat (48 + n) :: acc
    else natCharsCore fuel (n / 10) (Char.ofNat (48 + n % 10) :: acc)

/-- Decimal digits of a natural number. -/
def natChars (n : Nat) : List Char :=
  natCharsCore (n + 1) n []

/-- `Parser::_appendSgrCode`: the SGR escape sequence appended for
`frame`, or nothing when `emitSgrCodes` is false. -/
def appendSgrCode (emitSgrCodes hasTrueColorSupport : Bool) (frame : StackFrame) :
    List Char :=
  if !emitSgrCodes then [] else
  let os : List Char := [escChar, '[', '0']
  let os := if frame.hasBold then os ++ [';', '1'] else os
  let os := if frame.hasDim then os ++ [';', '2'] else os
  let os := if frame.hasItalic then os ++ [';', '3'] else os
  let os := if frame.hasUnderline then os ++ [';', '4'] else os
  let os := if frame.hasReverse then os ++ [';', '7'] else os
  let os :=
    if hasTrueColorSupport && frame.hasFgTrueColor then
      os ++ [';', '3', '8', ';', '2', ';'] ++ natChars frame.fgTrueColor.r ++ [';'] ++
        natChars frame.fgTrueColor.g ++ [';'] ++ natChars frame.fgTrueColor.b
    else if frame.hasFgColor then
      os ++ [';'] ++ natChars ((if frame.hasBright then 90 else 30) + frame.fgColorCodeOffset)
    else os
  let os :=
    if hasTrueColorSupport && frame.hasBgTrueColor then
      os ++ [';', '4', '8', ';', '2', ';'] ++ natChars frame.bgTrueColor.r ++ [';'] ++
        natChars frame.bgTrueColor.g ++ [';'] ++ natChars frame.bgTrueColor.b
    else if frame.hasBgColor then
      os ++ [';'] ++ natChars (40 + frame.bgColorCodeOffset)
    else os
  os ++ ['m']

/-- `if (!frame.hasBold && stackBack.hasBold)` in `Parser::_parse`. -/
def inheritBold (frame top : StackFrame) : StackFrame :=
  if !frame.hasBold && top.hasBold then { frame with hasBold := true } else frame

/-- `if (!frame.hasDim && stackBack.hasDim)` in `Parser::_parse`. -/
def inheritDim (frame top : StackFrame) : StackFrame :=
  if !frame.hasDim && top.hasDim then { frame with hasDim := true } else frame

/-- `if (!frame.hasUnderline && stackBack.hasUnderline)` in `Parser::_parse`. -/
def inheritUnderline (frame top : StackFrame) : StackFrame :=
  if !frame.hasUnderline && top.hasUnderline then { frame with hasUnderline := true } else frame

/-- `if (!frame.hasItalic && stackBack.hasItalic)` in `Parser::_parse`. -/
def inheritItalic (frame top : StackFrame) : StackFrame :=
  if !frame.hasItalic && top.hasItalic then { frame with hasItalic := true } else frame

/-- `if (!frame.hasReverse && stackBack.hasReverse)` in `Parser::_parse`. -/
def inheritReverse (frame top : StackFrame) : StackFrame :=
  if !frame.hasReverse && top.hasReverse then { frame with hasReverse := true } else frame

/-- `if (!frame.hasBright && stackBack.hasBright)` in `Parser::_parse`. -/
def inheritBright (frame top : StackFrame) : StackFrame :=
  if !frame.hasBright && top.hasBright then { frame with hasBright := true } else frame

/-- `if (!frame.hasFgColor && stackBack.hasFgColor)` in `Parser::_parse`. -/
def inheritFgColor (frame top : StackFrame) : StackFrame :=
  if !frame.hasFgColor && top.hasFgColor then frame.setFgColor top.fgColorCodeOffset else frame

/-- `if (!frame.hasBgColor && stackBack.hasBgColor)` in `Parser::_parse`. -/
def inheritBgColor (frame top : StackFrame) : StackFrame :=
  if !frame.hasBgColor && top.hasBgColor then frame.setBgColor top.bgColorCodeOffset else frame

/-- `if (!frame.hasFgTrueColor && stackBack.hasFgTrueColor)` in `Parser::_parse`. -/
def inheritFgTrueColor (frame top : StackFrame) : StackFrame :=
  if !frame.hasFgTrueColor && top.hasFgTrueColor then frame.setFgTrueColor top.fgTrueColor
  else frame

/-- `if (!frame.hasBgTrueColor && stackBack.hasBgTrueColor)` in `Parser::_parse`. -/
def inheritBgTrueColor (frame top : StackFrame) : StackFrame :=
  if !frame.hasBgTrueColor && top.hasBgTrueColor then frame.setBgTrueColor top.bgTrueColor
  else frame

/-- The inheritance block of `Parser::_parse` (the ten `if` statements
run after `_parseOpenTag` and before `_stackPush`, in source order),
merging the newly parsed `frame` with the current top-of-stack frame
`top`. -/
def inheritFrom (frame top : StackFrame) : StackFrame :=
  inheritBgTrueColor
    (inheritFgTrueColor
      (inheritBgColor
        (inheritFgColor
          (inheritBright
            (inheritReverse
              (inheritItalic (inheritUnderline (inheritDim (inheritBold frame top) top) top) top)
              top)
            top)
          top)
        top)
      top)
    top

/-- The escape-sequence branch of `Parser::_parse` (after the leading
backslash): the character to copy and the remaining input. -/
def escStep : List Char → Except String (Char × List Char)
  | [] => .error "Incomplete escape sequence at end of string"
  | c2 :: rest2 =>
    if c2 = backslashChar || c2 = '[' then .ok (c2, rest2)
    else .error "Invalid escape sequence"

/-- The closing-tag branch of `Parser::_parse` (after the leading `[`,
with `rest` starting at the first `/`): the stack left after popping
and the input after the `]`. -/
def closeTagStep (rest : List Char) (stack : List StackFrame) :
    Except String (List StackFrame × List Char) :=
  match countSlashes rest with
  | (slashCount, ']' :: rest2) =>
    if stack.length ≤ slashCount then .error "Unbalanced closing tag"
    else .ok (stack.drop slashCount, rest2)
  | (_, _) => .error "Expecting `]` after `[/`"

/-- The opening-tag branch of `Parser::_parse` (after the leading `[`):
parse the tag body, inherit from the top of `stack`, check the
capacity; the merged frame to push and the remaining input. -/
def openTagStep (rest : List Char) (stack : List StackFrame) :
    Except String (StackFrame × List Char) :=
  match parseOpenTagBody rest defaultFrame with
  | .ok (frame, rest2) =>
    let merged := inheritFrom frame (stack.headD defaultFrame)
    if stackCapacity ≤ stack.length then .error "Maximum nesting depth exceeded"
    else .ok (merged, rest2)
  | .error e => .error e

/-- The scanning loop of `Parser::_parse`, structurally recursive over a
fuel bound.  `emit` is `_emitSgrCodes`, `tc` is `_hasTrueColorSupport`,
`stack` is the frame stack with its top at the head, and `acc` is the
output accumulated so far. -/
def parseLoopF (emit tc : Bool) :
    Nat → List Char → List StackFrame → List Char → Except String (List Char)
  | _, [], stack, acc =>
    if stack.length > 1 then .error "Unbalanced opening tag" else .ok acc
  | 0, _ :: _, _, _ => .error "out of fuel"
  | fuel + 1, c :: rest, stack, acc =>
    if c = backslashChar then
      match escStep rest with
      | .ok (c2, rest2) => parseLoopF emit tc fuel rest2 stack (acc ++ [c2])
      | .error e => .error e
    else if c = '[' then
      match rest with
      | '/' :: _ =>
        match closeTagStep rest stack with
        | .ok (newStack, rest2) =>
          parseLoopF emit tc fuel rest2 newStack
            (acc ++ appendSgrCode emit tc (newStack.headD defaultFrame))
        | .error e => .error e
      | _ =>
        match openTagStep rest stack with
        | .ok (merged, rest2) =>
          parseLoopF emit tc fuel rest2 (merged :: stack) (acc ++ appendSgrCode emit tc merged)
        | .error e => .error e
    else parseLoopF emit tc fuel rest stack (acc ++ [c])

/-- The scanning loop of `Parser::_parse` from a given state.  The
recursion budget `s.length` always suffices because every iteration
consumes at least one character. -/
def parseLoop (emit tc : Bool) (s : List Char) (stack : List StackFrame) (acc : List Char) :
    Except String (List Char) :=
  parseLoopF emit tc s.length s stack acc

/-- `Parser::_parse` (with `Parser::str()`): scan the whole input
starting from a stack holding the single default frame. -/
def parse (s : List Char) (emit tc : Bool) : Except String (List Char) :=
  parseLoop emit tc s [defaultFrame] []

/-- `mint::escape`. -/
def escape : List Char → List Char
  | [] => []
  | c :: rest =>
    if c = backslashChar then backslashChar :: backslashChar :: escape rest
    else if c = '[' then backslashChar :: '[' :: escape rest
    else c :: escape rest

/-- The inner scan of `mint::escapeAnsi`: skip to the character after
the next `m`, or `none` if there is none. -/
def scanToM : List Char → Option (List Char)
  | [] => none
  | c :: rest => if c = 'm' then some rest else scanToM rest

theorem scanToM_length :
    ∀ (s : List Char) {r : List Char}, scanToM s = some r → r.length < s.length := by
  intro s
  induction s with
  | nil => intro r h; simp [scanToM] at h
  | cons c rest ih =>
    intro r h
    simp only [scanToM] at h
    split at h
    · cases h; simp
    · exact Nat.lt_succ_of_lt (ih h)

/-- `mint::escapeAnsi`, structurally recursive over a fuel bound. -/
def escapeAnsiF : Nat → List Char → List Char
  | _, [] => []
  | 0, _ :: _ => []
  | fuel + 1, c :: rest =>
    if c = escChar then
      match rest with
      | '[' :: rest2 =>
        match scanToM rest2 with
        | some rest3 => escapeAnsiF fuel rest3
        | none => c :: escapeAnsiF fuel rest
      | _ => c :: escapeAnsiF fuel rest
    else c :: escapeAnsiF fuel rest

/-- `mint::escapeAnsi`: remove well-formed `ESC [ ... m` sequences. -/
def escapeAnsi (s : List Char) : List Char :=
  escapeAnsiF s.length s

/-! Basic facts about the step functions and the fuel budget. -/

theorem escStep_length {rest r : List Char} {c2 : Char}
    (h : escStep rest = .ok (c2, r)) : r.length + 1 = rest.length := by
  match rest with
  | [] => simp [escStep] at h
  | c :: rest2 =>
    simp only [escStep] at h
    split at h
    · cases h; simp
    · cases h

theorem closeTagStep_length {rest r : List Char} {stack newStack : List StackFrame}
    (h : closeTagStep rest stack = .ok (newStack, r)) : r.length < rest.length := by
  simp only [closeTagStep] at h
  split at h
  · rename_i slashCount rest2 heq
    split at h
    · cases h
    · cases h
      have hl := countSlashes_length rest heq
      simp only [List.length_cons] at hl
      omega
  · cases h

theorem openTagStep_length {rest r : List Char} {stack : List StackFrame} {merged : StackFrame}
    (h : openTagStep rest stack = .ok (merged, r)) : r.length < rest.length := by
  simp only [openTagStep] at h
  split at h
  · rename_i frame rest2 heq
    split at h
    · cases h
    · cases h
      exact parseOpenTagBody_length heq
  · cases h

theorem parseLoopF_congr (emit tc : Bool) :
    ∀ (f1 f2 : Nat) (s : List Char) (stack : List StackFrame) (acc : List Char),
      s.length ≤ f1 → s.length ≤ f2 →
      parseLoopF emit tc f1 s stack acc = parseLoopF emit tc f2 s stack acc := by
  intro f1
  induction f1 with
  | zero =>
    intro f2 s stack acc h1 h2
    match s with
    | [] => cases f2 <;> simp [parseLoopF]
    | c :: rest => simp at h1
  | succ f1 ih =>
    intro f2 s stack acc h1 h2
    match s with
    | [] => cases f2 <;> simp [parseLoopF]
    | c :: rest =>
      match f2 with
      | 0 => simp at h2
      | f2 + 1 =>
        simp only [List.length_cons] at h1 h2
        simp only [parseLoopF]
        by_cases hc1 : c = backslashChar
        · simp only [if_pos hc1]
          split
          · rename_i c2 rest2 hesc
            have hl := escStep_length hesc
            exact ih _ _ _ _ (by omega) (by omega)
          · rfl
        · simp only [if_neg hc1]
          by_cases hc2 : c = '['
          · simp only [if_pos hc2]
            split
            · split
              · rename_i newStack rest2 hcl
                have hl := closeTagStep_length hcl
                exact ih _ _ _ _ (by omega) (by omega)
              · rfl
            · split
              · rename_i merged rest2 hop
                have hl := openTagStep_length hop
                exact ih _ _ _ _ (by omega) (by omega)
              · rfl
          · simp only [if_neg hc2]
            exact ih _ _ _ _ (by omega) (by omega)

theorem escapeAnsiF_congr :
    ∀ (f1 f2 : Nat) (s : List Char), s.length ≤ f1 → s.length ≤ f2 →
      escapeAnsiF f1 s = escapeAnsiF f2 s := by
  intro f1
  induction f1 with
  | zero =>
    intro f2 s h1 h2
    match s with
    | [] => cases f2 <;> simp [escapeAnsiF]
    | c :: rest => simp at h1
  | succ f1 ih =>
    intro f2 s h1 h2
    match s with
    | [] => cases f2 <;> simp [escapeAnsiF]
    | c :: rest =>
      match f2 with
      | 0 => simp at h2
      | f2 + 1 =>
        simp only [List.length_cons] at h1 h2
        simp only [escapeAnsiF]
        by_cases hc1 : c = escChar
        · simp only [if_pos hc1]
          split
          · rename_i rest2
            split
            · rename_i rest3 hsc
              have hl := scanToM_length rest2 hsc
              simp only [List.length_cons] at h1 h2
              exact ih f2 rest3 (by omega) (by omega)
            · rw [ih f2 ('[' :: rest2) (by omega) (by omega)]
          · rw [ih f2 rest (by omega) (by omega)]
        · simp only [if_neg hc1]
          rw [ih f2 rest (by omega) (by omega)]

/-! Step equations for `parseLoop` (the wrapper that runs `parseLoopF`
with the exact budget). -/

theorem parseLoop_nil (emit tc : Bool) (stack : List StackFrame) (acc : List Char) :
    parseLoop emit tc [] stack acc =
      if stack.length > 1 then .error "Unbalanced opening tag" else .ok acc := by
  simp [parseLoop, parseLoopF]

theorem parseLoop_cons (emit tc : Bool) (c : Char) (rest : List Char)
    (stack : List StackFrame) (acc : List Char) :
    parseLoop emit tc (c :: rest) stack acc =
      if c = backslashChar then
        match escStep rest with
        | .ok (c2, rest2) => parseLoop emit tc rest2 stack (acc ++ [c2])
        | .error e => .error e
      else if c = '[' then
        match rest with
        | '/' :: _ =>
          match closeTagStep rest stack with
          | .ok (newStack, rest2) =>
            parseLoop emit tc rest2 newStack
              (acc ++ appendSgrCode emit tc (newStack.headD defaultFrame))
          | .error e => .error e
        | _ =>
          match openTagStep rest stack with
          | .ok (merged, rest2) =>
            parseLoop emit tc rest2 (merged :: stack) (acc ++ appendSgrCode emit tc merged)
          | .error e => .error e
      else parseLoop emit tc rest stack (acc ++ [c]) := by
  simp only [parseLoop, List.length_cons, parseLoopF]
  by_cases hc1 : c = backslashChar
  · simp only [if_pos hc1]
    split
    · rename_i c2 rest2 hesc
      have hl := escStep_length hesc
      exact parseLoopF_congr emit tc _ _ _ _ _ (by omega) (by omega)
    · rfl
  · simp only [if_neg hc1]
    by_cases hc2 : c = '['
    · simp only [if_pos hc2]
      split
      · split
        · rename_i newStack rest2 hcl
          have hl := closeTagStep_length hcl
          exact parseLoopF_congr emit tc _ _ _ _ _ (by omega) (by omega)
        · rfl
      · split
        · rename_i merged rest2 hop
          have hl := openTagStep_length hop
          exact parseLoopF_congr emit tc _ _ _ _ _ (by omega) (by omega)
        · rfl
    · simp only [if_neg hc2]

theorem parseLoop_char (emit tc : Bool) {c : Char} (rest : List Char)
    (stack : List StackFrame) (acc : List Char) (h1 : c ≠ backslashChar) (h2 : c ≠ '[') :
    parseLoop emit tc (c :: rest) stack acc = parseLoop emit tc rest stack (acc ++ [c]) := by
  rw [parseLoop_cons]
  simp only [if_neg h1, if_neg h2]

theorem parseLoop_escape_ok (emit tc : Bool) {c2 : Char} {rest rest2 : List Char}
    (stack : List StackFrame) (acc : List Char) (h : escStep rest = .ok (c2, rest2)) :
    parseLoop emit tc (backslashChar :: rest) stack acc =
      parseLoop emit tc rest2 stack (acc ++ [c2]) := by
  rw [parseLoop_cons, h]
  try simp

theorem parseLoop_escape_err (emit tc : Bool) {rest : List Char} {e : String}
    (stack : List StackFrame) (acc : List Char) (h : escStep rest = .error e) :
    parseLoop emit tc (backslashChar :: rest) stack acc = .error e := by
  rw [parseLoop_cons, h]
  simp

theorem parseLoop_close_ok (emit tc : Bool) {rtail rest2 : List Char}
    {stack newStack : List StackFrame} (acc : List Char)
    (h : closeTagStep ('/' :: rtail) stack = .ok (newStack, rest2)) :
    parseLoop emit tc ('[' :: '/' :: rtail) stack acc =
      parseLoop emit tc rest2 newStack
        (acc ++ appendSgrCode emit tc (newStack.headD defaultFrame)) := by
  rw [parseLoop_cons, h]
  simp +decide [backslashChar]

theorem parseLoop_close_err (emit tc : Bool) {rtail : List Char} {e : String}
    {stack : List StackFrame} (acc : List Char)
    (h : closeTagStep ('/' :: rtail) stack = .error e) :
    parseLoop emit tc ('[' :: '/' :: rtail) stack acc = .error e := by
  rw [parseLoop_cons, h]
  simp +decide [backslashChar]

theorem parseLoop_open_ok (emit tc : Bool) {rest rest2 : List Char}
    {stack : List StackFrame} {merged : StackFrame} (acc : List Char)
    (hns : ∀ t : List Char, rest ≠ '/' :: t)
    (h : openTagStep rest stack = .ok (merged, rest2)) :
    parseLoop emit tc ('[' :: rest) stack acc =
      parseLoop emit tc rest2 (merged :: stack) (acc ++ appendSgrCode emit tc merged) := by
  rw [parseLoop_cons]
  have hb : ¬(('[' : Char) = backslashChar) := by decide
  rw [if_neg hb, if_pos rfl]
  split
  · rename_i tail
    exact absurd rfl (hns tail)
  · rw [h]

theorem parseLoop_open_err (emit tc : Bool) {rest : List Char} {e : String}
    {stack : List StackFrame} (acc : List Char)
    (hns : ∀ t : List Char, rest ≠ '/' :: t)
    (h : openTagStep rest stack = .error e) :
    parseLoop emit tc ('[' :: rest) stack acc = .error e := by
  rw [parseLoop_cons]
  have hb : ¬(('[' : Char) = backslashChar) := by decide
  rw [if_neg hb, if_pos rfl]
  split
  · rename_i tail
    exact absurd rfl (hns tail)
  · rw [h]

/-! Characterization of the inheritance merge (claim C1). -/

theorem inheritBold_spec (f t : StackFrame) :
    inheritBold f t = { f with hasBold := f.hasBold || t.hasBold } := by
  cases hf : f.hasBold <;> cases ht : t.hasBold <;>
    simp [inheritBold, hf, ht] <;> (cases f; simp_all)

theorem inheritDim_spec (f t : StackFrame) :
    inheritDim f t = { f with hasDim := f.hasDim || t.hasDim } := by
  cases hf : f.hasDim <;> cases ht : t.hasDim <;>
    simp [inheritDim, hf, ht] <;> (cases f; simp_all)

theorem inheritUnderline_spec (f t : StackFrame) :
    inheritUnderline f t = { f with hasUnderline := f.hasUnderline || t.hasUnderline } := by
  cases hf : f.hasUnderline <;> cases ht : t.hasUnderline <;>
    simp [inheritUnderline, hf, ht] <;> (cases f; simp_all)

theorem inheritItalic_spec (f t : StackFrame) :
    inheritItalic f t = { f with hasItalic := f.hasItalic || t.hasItalic } := by
  cases hf : f.hasItalic <;> cases ht : t.hasItalic <;>
    simp [inheritItalic, hf, ht] <;> (cases f; simp_all)

theorem inheritReverse_spec (f t : StackFrame) :
    inheritReverse f t = { f with hasReverse := f.hasReverse || t.hasReverse } := by
  cases hf : f.hasReverse <;> cases ht : t.hasReverse <;>
    simp [inheritReverse, hf, ht] <;> (cases f; simp_all)

theorem inheritBright_spec (f t : StackFrame) :
    inheritBright f t = { f with hasBright := f.hasBright || t.hasBright } := by
  cases hf : f.hasBright <;> cases ht : t.hasBright <;>
    simp [inheritBright, hf, ht] <;> (cases f; simp_all)

theorem inheritFgColor_spec (f t : StackFrame) :
    inheritFgColor f t =
      { f with hasFgColor := f.hasFgColor || t.hasFgColor,
               fgColorCodeOffset :=
                 if !f.hasFgColor && t.hasFgColor then t.fgColorCodeOffset
                 else f.fgColorCodeOffset } := by
  cases hf : f.hasFgColor <;> cases ht : t.hasFgColor <;>
    simp [inheritFgColor, StackFrame.setFgColor, hf, ht] <;> (cases f; simp_all)

theorem inheritBgColor_spec (f t : StackFrame) :
    inheritBgColor f t =
      { f with hasBgColor := f.hasBgColor || t.hasBgColor,
               bgColorCodeOffset :=
                 if !f.hasBgColor && t.hasBgColor then t.bgColorCodeOffset
                 else f.bgColorCodeOffset } := by
  cases hf : f.hasBgColor <;> cases ht : t.hasBgColor <;>
    simp [inheritBgColor, StackFrame.setBgColor, hf, ht] <;> (cases f; simp_all)

theorem inheritFgTrueColor_spec (f t : StackFrame) :
    inheritFgTrueColor f t =
      { f with hasFgTrueColor := f.hasFgTrueColor || t.hasFgTrueColor,
               fgTrueColor :=
                 if !f.hasFgTrueColor && t.hasFgTrueColor then t.fgTrueColor
                 else f.fgTrueColor } := by
  cases hf : f.hasFgTrueColor <;> cases ht : t.hasFgTrueColor <;>
    simp [inheritFgTrueColor, StackFrame.setFgTrueColor, hf, ht] <;> (cases f; simp_all)

theorem inheritBgTrueColor_spec (f t : StackFrame) :
    inheritBgTrueColor f t =
      { f with hasBgTrueColor := f.hasBgTrueColor || t.hasBgTrueColor,
               bgTrueColor :=
                 if !f.hasBgTrueColor && t.hasBgTrueColor then t.bgTrueColor
                 else f.bgTrueColor } := by
  cases hf : f.hasBgTrueColor <;> cases ht : t.hasBgTrueColor <;>
    simp [inheritBgTrueColor, StackFrame.setBgTrueColor, hf, ht] <;> (cases f; simp_all)

/-- The merge the code actually performs, written field-wise: every
boolean flag is the OR of the two frames' flags, and each of the four
color slots (basic foreground, basic background, true-color foreground,
true-color background) is inherited from the top of stack independently
of the other slots. -/
def specMergedFrame (n t : StackFrame) : StackFrame where
  hasBold := n.hasBold || t.hasBold
  hasDim := n.hasDim || t.hasDim
  hasUnderline := n.hasUnderline || t.hasUnderline
  hasItalic := n.hasItalic || t.hasItalic
  hasReverse := n.hasReverse || t.hasReverse
  hasBright := n.hasBright || t.hasBright
  hasFgColor := n.hasFgColor || t.hasFgColor
  fgColorCodeOffset :=
    if !n.hasFgColor && t.hasFgColor then t.fgColorCodeOffset else n.fgColorCodeOffset
  hasBgColor := n.hasBgColor || t.hasBgColor
  bgColorCodeOffset :=
    if !n.hasBgColor && t.hasBgColor then t.bgColorCodeOffset else n.bgColorCodeOffset
  hasFgTrueColor := n.hasFgTrueColor || t.hasFgTrueColor
  fgTrueColor := if !n.hasFgTrueColor && t.hasFgTrueColor then t.fgTrueColor else n.fgTrueColor
  hasBgTrueColor := n.hasBgTrueColor || t.hasBgTrueColor
  bgTrueColor := if !n.hasBgTrueColor && t.hasBgTrueColor then t.bgTrueColor else n.bgTrueColor

/-- The foreground part of claim C1 as stated: if `n` specifies no
foreground color (neither basic nor true), `t`'s foreground setting is
copied, otherwise `n`'s foreground is kept unchanged and `t`'s
foreground contributes nothing. -/
@[reducible]
def claimFgRule (n t e : StackFrame) : Prop :=
  ((n.hasFgColor || n.hasFgTrueColor) = true →
    e.hasFgColor = n.hasFgColor ∧ e.hasFgTrueColor = n.hasFgTrueColor ∧
      (e.hasFgColor = true → e.fgColorCodeOffset = n.fgColorCodeOffset) ∧
      (e.hasFgTrueColor = true → e.fgTrueColor = n.fgTrueColor)) ∧
  ((n.hasFgColor || n.hasFgTrueColor) = false →
    e.hasFgColor = t.hasFgColor ∧ e.hasFgTrueColor = t.hasFgTrueColor ∧
      (e.hasFgColor = true → e.fgColorCodeOffset = t.fgColorCodeOffset) ∧
      (e.hasFgTrueColor = true → e.fgTrueColor = t.fgTrueColor))

/-- The background part of claim C1 as stated, mirroring `claimFgRule`. -/
@[reducible]
def claimBgRule (n t e : StackFrame) : Prop :=
  ((n.hasBgColor || n.hasBgTrueColor) = true →
    e.hasBgColor = n.hasBgColor ∧ e.hasBgTrueColor = n.hasBgTrueColor ∧
      (e.hasBgColor = true → e.bgColorCodeOffset = n.bgColorCodeOffset) ∧
      (e.hasBgTrueColor = true → e.bgTrueColor = n.bgTrueColor)) ∧
  ((n.hasBgColor || n.hasBgTrueColor) = false →
    e.hasBgColor = t.hasBgColor ∧ e.hasBgTrueColor = t.hasBgTrueColor ∧
      (e.hasBgColor = true → e.bgColorCodeOffset = t.bgColorCodeOffset) ∧
      (e.hasBgTrueColor = true → e.bgTrueColor = t.bgTrueColor))

/-- Claim C1 as stated: flags are ORed, and each color channel follows
the claimed all-or-nothing rule. -/
@[reducible]
def claimMergeRule (n t e : StackFrame) : Prop :=
  (e.hasBold = (n.hasBold || t.hasBold) ∧ e.hasDim = (n.hasDim || t.hasDim) ∧
    e.hasUnderline = (n.hasUnderline || t.hasUnderline) ∧
    e.hasItalic = (n.hasItalic || t.hasItalic) ∧
    e.hasReverse = (n.hasReverse || t.hasReverse) ∧
    e.hasBright = (n.hasBright || t.hasBright)) ∧
  claimFgRule n t e ∧ claimBgRule n t e

/-- A tag frame that sets only a basic red foreground, as parsed from
the tag body `r]`. -/
def frameC1N : StackFrame := defaultFrame.setFgColor 1

/-- A top-of-stack frame holding only a true-color foreground. -/
def frameC1T : StackFrame := defaultFrame.setFgTrueColor ⟨1, 2, 3⟩

/-- Claim C1 fails on the code: when the parsed frame `N` sets only a
basic foreground color and the top-of-stack frame `T` holds a
true-color foreground, the merge copies `T`'s true color anyway, so
`T`'s foreground does contribute even though `N` specified a
foreground.  (`frameC1N` is exactly the frame parsed from the tag
`[r]`, as the second conjunct checks.) -/
theorem claimC1_counterexample :
    ¬ claimMergeRule frameC1N frameC1T (inheritFrom frameC1N frameC1T) ∧
      parseOpenTagBody ("r]".data) defaultFrame = .ok (frameC1N, []) := by
  constructor
  · decide
  · decide

/-- Claim C1 amended: every boolean flag of the merged frame is the OR
of `N`'s and `T`'s, and each of the four color slots (basic foreground,
true-color foreground, basic background, true-color background) is
inherited independently: a slot that `N` does not set is copied from
`T`, even when `N` sets the other slot of the same channel. -/
theorem claimC1_theorem (n t : StackFrame) : inheritFrom n t = specMergedFrame n t := by
  cases n; cases t
  simp [inheritFrom, inheritBold_spec, inheritDim_spec, inheritUnderline_spec,
    inheritItalic_spec, inheritReverse_spec, inheritBright_spec, inheritFgColor_spec,
    inheritBgColor_spec, inheritFgTrueColor_spec, inheritBgTrueColor_spec, specMergedFrame]

/-! The SGR encoder, spec-side (claim C2). -/

/-- The reset that starts every emitted SGR sequence: `ESC [ 0`. -/
def specSgrReset : List Char := [escChar, '[', '0']

/-- One boolean-attribute field of the SGR sequence: `;` followed by the
field's code when the flag is set, nothing otherwise. -/
def specFlagSection (flag : Bool) (code : Char) : List Char :=
  if flag then [';', code] else []

/-- The foreground field of the SGR sequence: the 24-bit form when
true-color emission is enabled and the frame has a true color, else the
basic code 30 (or 90 when the bright modifier is set) plus the
per-color offset when a basic color is present, else nothing. -/
def specFgSection (tc : Bool) (f : StackFrame) : List Char :=
  if tc && f.hasFgTrueColor then
    [';', '3', '8', ';', '2', ';'] ++ natChars f.fgTrueColor.r ++ [';'] ++
      natChars f.fgTrueColor.g ++ [';'] ++ natChars f.fgTrueColor.b
  else if f.hasFgColor then
    [';'] ++ natChars ((if f.hasBright then 90 else 30) + f.fgColorCodeOffset)
  else []

/-- The background field of the SGR sequence: base 40 plus the same
per-color offsets, ignoring the bright modifier (with the 24-bit form
taking precedence exactly as for the foreground). -/
def specBgSection (tc : Bool) (f : StackFrame) : List Char :=
  if tc && f.hasBgTrueColor then
    [';', '4', '8', ';', '2', ';'] ++ natChars f.bgTrueColor.r ++ [';'] ++
      natChars f.bgTrueColor.g ++ [';'] ++ natChars f.bgTrueColor.b
  else if f.hasBgColor then
    [';'] ++ natChars (40 + f.bgColorCodeOffset)
  else []

/-- The SGR sequence of a frame per the spec: reset first, then in this
fixed order bold, dim, italic, underline, reverse, foreground,
background, and a final `m`. -/
def specSgrCode (tc : Bool) (f : StackFrame) : List Char :=
  specSgrReset ++ specFlagSection f.hasBold '1' ++ specFlagSection f.hasDim '2' ++
    specFlagSection f.hasItalic '3' ++ specFlagSection f.hasUnderline '4' ++
    specFlagSection f.hasReverse '7' ++ specFgSection tc f ++ specBgSection tc f ++ ['m']

theorem flagSection_append (flag : Bool) (code : Char) (os : List Char) :
    (if flag then os ++ [';', code] else os) = os ++ specFlagSection flag code := by
  cases flag <;> simp [specFlagSection]

theorem fgSection_append (tc : Bool) (f : StackFrame) (os : List Char) :
    (if tc && f.hasFgTrueColor then
        os ++ [';', '3', '8', ';', '2', ';'] ++ natChars f.fgTrueColor.r ++ [';'] ++
          natChars f.fgTrueColor.g ++ [';'] ++ natChars f.fgTrueColor.b
      else if f.hasFgColor then
        os ++ [';'] ++ natChars ((if f.hasBright then 90 else 30) + f.fgColorCodeOffset)
      else os) = os ++ specFgSection tc f := by
  simp only [specFgSection]
  split
  · simp
  · split
    · simp
    · simp

theorem bgSection_append (tc : Bool) (f : StackFrame) (os : List Char) :
    (if tc && f.hasBgTrueColor then
        os ++ [';', '4', '8', ';', '2', ';'] ++ natChars f.bgTrueColor.r ++ [';'] ++
          natChars f.bgTrueColor.g ++ [';'] ++ natChars f.bgTrueColor.b
      else if f.hasBgColor then
        os ++ [';'] ++ natChars (40 + f.bgColorCodeOffset)
      else os) = os ++ specBgSection tc f := by
  simp only [specBgSection]
  split
  · simp
  · split
    · simp
    · simp

theorem appendSgrCode_eq_spec (emit tc : Bool) (f : StackFrame) :
    appendSgrCode emit tc f = if emit = true then specSgrCode tc f else [] := by
  cases emit
  · simp [appendSgrCode]
  · rw [if_pos rfl]
    simp only [appendSgrCode, Bool.not_true, Bool.false_eq_true, if_false]
    rw [flagSection_append, flagSection_append, flagSection_append, flagSection_append,
      flagSection_append, fgSection_append, bgSection_append]
    simp only [specSgrCode, specSgrReset]

/-- Claim C2: the emitted escape sequence of every frame decomposes as a
reset followed, in this fixed order, by the bold, dim, italic,
underline, reverse, foreground and background fields and a final `m`
(`specSgrCode` with the stated field contents); the basic-color letters
carry the claimed offsets (default=9, black=0, red=1, green=2,
yellow=3, blue=4, magenta=5, cyan=6, white=7); and a tag with only a
true-color foreground spec emits no foreground code when true-color
emission is disabled, unless a basic color was also set by inheritance
or within the same tag. -/
theorem claimC2_theorem :
    (∀ (emit tc : Bool) (f : StackFrame),
        appendSgrCode emit tc f = if emit = true then specSgrCode tc f else []) ∧
    (∀ r : List Char,
        tryParseBasicColor ('d' :: r) = .ok (9, r) ∧
        tryParseBasicColor ('k' :: r) = .ok (0, r) ∧
        tryParseBasicColor ('r' :: r) = .ok (1, r) ∧
        tryParseBasicColor ('g' :: r) = .ok (2, r) ∧
        tryParseBasicColor ('y' :: r) = .ok (3, r) ∧
        tryParseBasicColor ('b' :: r) = .ok (4, r) ∧
        tryParseBasicColor ('m' :: r) = .ok (5, r) ∧
        tryParseBasicColor ('c' :: r) = .ok (6, r) ∧
        tryParseBasicColor ('w' :: r) = .ok (7, r)) ∧
    parse ("[#010203]A[/]".data) true false = .ok ("\x1b[0mA\x1b[0m".data) ∧
    parse ("[r][#010203]A[//]".data) true false = .ok ("\x1b[0;31m\x1b[0;31mA\x1b[0m".data) ∧
    parse ("[r#010203]A[/]".data) true false = .ok ("\x1b[0;31mA\x1b[0m".data) := by
  refine ⟨appendSgrCode_eq_spec,
    fun r => ⟨rfl, rfl, rfl, rfl, rfl, rfl, rfl, rfl, rfl⟩, ?_, ?_, ?_⟩ <;> decide

/-! Duplicate color specs within one tag (claim C3). -/

/-- Claim C3 fails on the code: in the tag `[#010203r]` the later
foreground spec is the basic letter `r`, yet with true-color emission
enabled the emitted foreground is the earlier true-color spec, and the
output differs from that of `[r]` alone, so the earlier spec was
neither overwritten nor without effect. -/
theorem claimC3_counterexample :
    parse ("[#010203r]A[/]".data) true true = .ok ("\x1b[0;38;2;1;2;3mA\x1b[0m".data) ∧
    parse ("[r]A[/]".data) true true = .ok ("\x1b[0;31mA\x1b[0m".data) ∧
    parse ("[#010203r]A[/]".data) true true ≠ parse ("[r]A[/]".data) true true := by
  refine ⟨?_, ?_, ?_⟩ <;> decide

/-- Claim C3 amended: a second color spec of the same kind (basic or
true-color) for a channel silently overwrites the first, the later one
winning; a basic and a true-color spec for the same channel are instead
recorded independently, in either order (the setters commute), and the
channel is emitted as the true color when true-color emission is
enabled, else as the basic color. -/
theorem claimC3_theorem :
    (∀ (f : StackFrame) (o1 o2 : Nat), (f.setFgColor o1).setFgColor o2 = f.setFgColor o2) ∧
    (∀ (f : StackFrame) (c1 c2 : TrueColor),
        (f.setFgTrueColor c1).setFgTrueColor c2 = f.setFgTrueColor c2) ∧
    (∀ (f : StackFrame) (o1 o2 : Nat), (f.setBgColor o1).setBgColor o2 = f.setBgColor o2) ∧
    (∀ (f : StackFrame) (c1 c2 : TrueColor),
        (f.setBgTrueColor c1).setBgTrueColor c2 = f.setBgTrueColor c2) ∧
    (∀ (f : StackFrame) (o : Nat) (c : TrueColor),
        (f.setFgColor o).setFgTrueColor c = (f.setFgTrueColor c).setFgColor o) ∧
    (∀ (f : StackFrame) (o : Nat) (c : TrueColor),
        (f.setBgColor o).setBgTrueColor c = (f.setBgTrueColor c).setBgColor o) ∧
    (∀ (o : Nat) (c : TrueColor) (tc : Bool),
        appendSgrCode true tc ((defaultFrame.setFgColor o).setFgTrueColor c) =
          if tc = true then
            [escChar, '[', '0', ';', '3', '8', ';', '2', ';'] ++ natChars c.r ++ [';'] ++
              natChars c.g ++ [';'] ++ natChars c.b ++ ['m']
          else [escChar, '[', '0', ';'] ++ natChars (30 + o) ++ ['m']) ∧
    parse ("[rg]A[/]".data) true false = .ok ("\x1b[0;32mA\x1b[0m".data) ∧
    parse ("[#010203#040506]A[/]".data) true true = .ok ("\x1b[0;38;2;4;5;6mA\x1b[0m".data) := by
  refine ⟨fun f o1 o2 => rfl, fun f c1 c2 => rfl, fun f o1 o2 => rfl, fun f c1 c2 => rfl,
    fun f o c => rfl, fun f o c => rfl, ?_, by decide, by decide⟩
  intro o c tc
  cases tc <;>
    simp [appendSgrCode, StackFrame.setFgColor, StackFrame.setFgTrueColor, defaultFrame]

/-! Closing tags, balance, and the depth limit (claims C4, C5, C6). -/

theorem countSlashes_replicate (n : Nat) (rest : List Char)
    (h : ∀ t : List Char, rest ≠ '/' :: t) :
    countSlashes (List.replicate n '/' ++ rest) = (n, rest) := by
  induction n with
  | zero =>
    match rest with
    | [] => rfl
    | c :: t =>
      have hc : ¬(c = '/') := by
        intro hc; exact h t (by rw [hc])
      simp [countSlashes, hc]
  | succ n ih => simp [List.replicate_succ, countSlashes, ih]

theorem closeTagStep_replicate (n : Nat) (rest2 : List Char) (stack : List StackFrame) :
    closeTagStep (List.replicate n '/' ++ ']' :: rest2) stack =
      if stack.length ≤ n then .error "Unbalanced closing tag"
      else .ok (stack.drop n, rest2) := by
  have h := countSlashes_replicate n (']' :: rest2) (by intro t ht; simp at ht)
  simp [closeTagStep, h]

theorem closeTagStep_noBracket (n : Nat) (after : List Char) (stack : List StackFrame)
    (h1 : ∀ t : List Char, after ≠ '/' :: t) (h2 : ∀ t : List Char, after ≠ ']' :: t) :
    closeTagStep (List.replicate n '/' ++ after) stack = .error "Expecting `]` after `[/`" := by
  have h := countSlashes_replicate n after h1
  match after with
  | [] =>
    simp only [List.append_nil] at h
    simp [closeTagStep, h]
  | c :: t =>
    have hc : ¬(c = ']') := by
      intro hc; exact h2 t (by rw [hc])
    simp [closeTagStep, h, hc]

/-- Claim C4: a closing tag `[`, n slashes (n ≥ 1), `]` succeeds exactly
when n is less than the stack depth, popping n frames and emitting the
SGR sequence of the frame then on top, and fails with the
unbalanced-closing-tag error when n is at least the depth; a slash run
not followed by `]` fails with the expecting-`]` error; and the input
`[!][_][^]X[///]` pops all three levels at once, the sequence emitted
afterward being that of the default frame. -/
theorem claimC4_theorem :
    (∀ (emit tc : Bool) (n : Nat) (rest2 : List Char) (stack : List StackFrame)
        (acc : List Char), 1 ≤ n →
        parseLoop emit tc ('[' :: (List.replicate n '/' ++ ']' :: rest2)) stack acc =
          if stack.length ≤ n then .error "Unbalanced closing tag"
          else
            parseLoop emit tc rest2 (stack.drop n)
              (acc ++ appendSgrCode emit tc ((stack.drop n).headD defaultFrame))) ∧
    (∀ (emit tc : Bool) (n : Nat) (after : List Char) (stack : List StackFrame)
        (acc : List Char), 1 ≤ n → (∀ t : List Char, after ≠ '/' :: t) →
        (∀ t : List Char, after ≠ ']' :: t) →
        parseLoop emit tc ('[' :: (List.replicate n '/' ++ after)) stack acc =
          .error "Expecting `]` after `[/`") ∧
    (∀ tc : Bool, parse ("[!][_][^]X[///]".data) true tc =
        .ok ("\x1b[0;1m\x1b[0;1;4m\x1b[0;1;4;7mX".data ++ appendSgrCode true tc defaultFrame)) := by
  refine ⟨?_, ?_, ?_⟩
  · intro emit tc n rest2 stack acc hn
    obtain ⟨m, rfl⟩ : ∃ m, n = m + 1 := ⟨n - 1, by omega⟩
    rw [List.replicate_succ, List.cons_append]
    have hcl := closeTagStep_replicate (m + 1) rest2 stack
    rw [List.replicate_succ, List.cons_append] at hcl
    by_cases hd : stack.length ≤ m + 1
    · rw [if_pos hd] at hcl ⊢
      exact parseLoop_close_err emit tc acc hcl
    · rw [if_neg hd] at hcl ⊢
      exact parseLoop_close_ok emit tc acc hcl
  · intro emit tc n after stack acc hn h1 h2
    obtain ⟨m, rfl⟩ : ∃ m, n = m + 1 := ⟨n - 1, by omega⟩
    rw [List.replicate_succ, List.cons_append]
    have hcl := closeTagStep_noBracket (m + 1) after stack h1 h2
    rw [List.replicate_succ, List.cons_append] at hcl
    exact parseLoop_close_err emit tc acc hcl
  · intro tc
    cases tc <;> decide

/-- Witness for claim C4 at concrete inputs: a three-deep stack with a
two-slash closing tag, and a slash run not followed by `]`. -/
theorem claimC4_witness :
    (parseLoop true true ('[' :: (List.replicate 2 '/' ++ ']' :: ([] : List Char)))
        [defaultFrame, defaultFrame, defaultFrame] [] =
      if ([defaultFrame, defaultFrame, defaultFrame] : List StackFrame).length ≤ 2 then
        .error "Unbalanced closing tag"
      else
        parseLoop true true []
          (([defaultFrame, defaultFrame, defaultFrame] : List StackFrame).drop 2)
          ([] ++ appendSgrCode true true
            ((([defaultFrame, defaultFrame, defaultFrame] : List StackFrame).drop 2).headD
              defaultFrame))) ∧
    parseLoop true true ('[' :: (List.replicate 1 '/' ++ ['x'])) [defaultFrame] [] =
      .error "Expecting `]` after `[/`" :=
  ⟨claimC4_theorem.1 true true 2 [] [defaultFrame, defaultFrame, defaultFrame] [] (by decide),
    claimC4_theorem.2.1 true true 1 ['x'] [defaultFrame] [] (by decide)
      (by intro t ht; simp at ht) (by intro t ht; simp at ht)⟩

/-- Claim C5: a closing tag whose pop count is at least the stack depth
fails with the unbalanced-closing-tag error; end of input with depth
greater than 1 fails with the unbalanced-opening-tag error, and with
depth at most 1 the parse returns its accumulated output; `X[/]` and
`[!]X` fail accordingly. -/
theorem claimC5_theorem :
    (∀ (emit tc : Bool) (n : Nat) (rest2 : List Char) (stack : List StackFrame)
        (acc : List Char), 1 ≤ n → stack.length ≤ n →
        parseLoop emit tc ('[' :: (List.replicate n '/' ++ ']' :: rest2)) stack acc =
          .error "Unbalanced closing tag") ∧
    (∀ (emit tc : Bool) (stack : List StackFrame) (acc : List Char), stack.length > 1 →
        parseLoop emit tc [] stack acc = .error "Unbalanced opening tag") ∧
    (∀ (emit tc : Bool) (stack : List StackFrame) (acc : List Char), stack.length ≤ 1 →
        parseLoop emit tc [] stack acc = .ok acc) ∧
    (∀ emit tc : Bool, parse ("X[/]".data) emit tc = .error "Unbalanced closing tag") ∧
    (∀ emit tc : Bool, parse ("[!]X".data) emit tc = .error "Unbalanced opening tag") := by
  refine ⟨?_, ?_, ?_, ?_, ?_⟩
  · intro emit tc n rest2 stack acc hn hd
    obtain ⟨m, rfl⟩ : ∃ m, n = m + 1 := ⟨n - 1, by omega⟩
    rw [List.replicate_succ, List.cons_append]
    have hcl := closeTagStep_replicate (m + 1) rest2 stack
    rw [List.replicate_succ, List.cons_append, if_pos hd] at hcl
    exact parseLoop_close_err emit tc acc hcl
  · intro emit tc stack acc hd
    rw [parseLoop_nil, if_pos hd]
  · intro emit tc stack acc hd
    rw [parseLoop_nil, if_neg (by omega)]
  · intro emit tc
    cases emit <;> cases tc <;> decide
  · intro emit tc
    cases emit <;> cases tc <;> decide

/-- Witness for claim C5 at concrete inputs. -/
theorem claimC5_witness :
    parseLoop true true ('[' :: (List.replicate 1 '/' ++ ']' :: ([] : List Char)))
        [defaultFrame] [] = .error "Unbalanced closing tag" ∧
    parseLoop true true [] [defaultFrame, defaultFrame] ['A'] =
      .error "Unbalanced opening tag" ∧
    parseLoop true true [] [defaultFrame] ['A'] = .ok ['A'] :=
  ⟨claimC5_theorem.1 true true 1 [] [defaultFrame] [] (by decide) (by decide),
    claimC5_theorem.2.1 true true [defaultFrame, defaultFrame] ['A'] (by decide),
    claimC5_theorem.2.2.1 true true [defaultFrame] ['A'] (by decide)⟩

/-- Claim C6: the frame stack capacity is 5 (one default frame plus four
nesting levels); a push onto a stack already at capacity fails with the
depth-exceeded error; four nested opening tags succeed and a fifth
fails. -/
theorem claimC6_theorem :
    stackCapacity = 5 ∧
    (∀ (emit tc : Bool) (rest rest2 : List Char) (frame : StackFrame)
        (stack : List StackFrame) (acc : List Char),
        (∀ t : List Char, rest ≠ '/' :: t) →
        parseOpenTagBody rest defaultFrame = .ok (frame, rest2) →
        stackCapacity ≤ stack.length →
        parseLoop emit tc ('[' :: rest) stack acc = .error "Maximum nesting depth exceeded") ∧
    parse ("[!][-][_][^]X[////]".data) true false =
      .ok ("\x1b[0;1m\x1b[0;1;2m\x1b[0;1;2;4m\x1b[0;1;2;4;7mX\x1b[0m".data) ∧
    parse ("[!][-][_][^][*]X".data) true false = .error "Maximum nesting depth exceeded" := by
  refine ⟨rfl, ?_, by decide, by decide⟩
  intro emit tc rest rest2 frame stack acc hns hbody hcap
  refine parseLoop_open_err emit tc acc hns ?_
  simp [openTagStep, hbody, if_pos hcap]

/-- Witness for claim C6: pushing onto a stack of five frames fails. -/
theorem claimC6_witness :
    parseLoop true true ('[' :: "!]A".data)
      [defaultFrame, defaultFrame, defaultFrame, defaultFrame, defaultFrame] [] =
      .error "Maximum nesting depth exceeded" :=
  claimC6_theorem.2.1 true true "!]A".data "A".data defaultFrame.withBold
    [defaultFrame, defaultFrame, defaultFrame, defaultFrame, defaultFrame] []
    (by intro t ht; simp at ht) (by decide) (by decide)

/-! The escape transform round-trip (claim C7). -/

theorem escStep_escaped_backslash (rest : List Char) :
    escStep (backslashChar :: rest) = .ok (backslashChar, rest) := by
  simp [escStep]

theorem escStep_escaped_bracket (rest : List Char) :
    escStep ('[' :: rest) = .ok ('[', rest) := by
  simp [escStep]

theorem parseLoop_escape_text (emit tc : Bool) :
    ∀ (s : List Char) (stack : List StackFrame) (acc : List Char), stack.length ≤ 1 →
      parseLoop emit tc (escape s) stack acc = .ok (acc ++ s) := by
  intro s
  induction s with
  | nil =>
    intro stack acc h
    rw [show escape [] = [] from rfl, parseLoop_nil, if_neg (by omega)]
    simp
  | cons c rest ih =>
    intro stack acc h
    by_cases hb : c = backslashChar
    · subst hb
      rw [show escape (backslashChar :: rest) = backslashChar :: backslashChar :: escape rest
          from by simp [escape]]
      rw [parseLoop_escape_ok emit tc stack acc (escStep_escaped_backslash (escape rest))]
      rw [ih stack (acc ++ [backslashChar]) h]
      simp
    · by_cases hbr : c = '['
      · subst hbr
        rw [show escape ('[' :: rest) = backslashChar :: '[' :: escape rest
            from by simp +decide [escape]]
        rw [parseLoop_escape_ok emit tc stack acc (escStep_escaped_bracket (escape rest))]
        rw [ih stack (acc ++ ['[']) h]
        simp
      · rw [show escape (c :: rest) = c :: escape rest from by simp [escape, hb, hbr]]
        rw [parseLoop_char emit tc (escape rest) stack acc hb hbr]
        rw [ih stack (acc ++ [c]) h]
        simp

/-- Claim C7: parsing `escape s` always succeeds, and with code
emission disabled it returns exactly `s`: the escape transform
(`\` to `\\`, `[` to `\[`) round-trips through the parser. -/
theorem claimC7_theorem (s : List Char) (emit tc : Bool) :
    (parse (escape s) emit tc).isOk = true ∧ parse (escape s) false tc = .ok s := by
  constructor
  · show (parseLoop emit tc (escape s) [defaultFrame] []).isOk = true
    rw [parseLoop_escape_text emit tc s [defaultFrame] [] (by decide)]
    rfl
  · show parseLoop false tc (escape s) [defaultFrame] [] = .ok s
    rw [parseLoop_escape_text false tc s [defaultFrame] [] (by decide)]
    simp

/-! Whitespace between specifiers (claim C9). -/

theorem parseOpenTagBody_space (l : List Char) (f : StackFrame) :
    parseOpenTagBody (' ' :: l) f = parseOpenTagBody l f := by
  simp +decide [parseOpenTagBody, parseOpenTagBodyF, parseOpenTagStep]

/-- Claim C9 fails on the code for whitespace other than the space
character: a space between specifiers is ignored, but a tab inside a
tag body is taken as a color letter and is a syntax error. -/
theorem claimC9_counterexample :
    parseOpenTagBody ("! ]".data) defaultFrame = .ok (defaultFrame.withBold, []) ∧
    parseOpenTagBody ("!\t]".data) defaultFrame = .error "Unknown color letter `\t`" := by
  refine ⟨?_, ?_⟩ <;> decide

/-- Claim C9 amended: within an opening tag body, any count of space
(`' '`) characters before a specifier token is skipped, so inserting
spaces between specifiers changes neither the parsed frame, the
remaining input, nor the error behavior. -/
theorem claimC9_theorem (n : Nat) (s : List Char) (f : StackFrame) :
    parseOpenTagBody (List.replicate n ' ' ++ s) f = parseOpenTagBody s f := by
  induction n with
  | zero => simp
  | succ n ih => rw [List.replicate_succ, List.cons_append, parseOpenTagBody_space, ih]

/-! Literal `]` and `/` characters (claim C10). -/

/-- Claim C10: any character other than `\` and `[` at the top level of
the scan, in particular `]` and `/` outside tags, is copied verbatim to
the output and never causes an error. -/
theorem claimC10_theorem :
    (∀ (emit tc : Bool) (c : Char) (rest : List Char) (stack : List StackFrame)
        (acc : List Char), c ≠ backslashChar → c ≠ '[' →
        parseLoop emit tc (c :: rest) stack acc = parseLoop emit tc rest stack (acc ++ [c])) ∧
    (∀ emit tc : Bool, parse ("a/b]c".data) emit tc = .ok ("a/b]c".data)) := by
  refine ⟨?_, ?_⟩
  · intro emit tc c rest stack acc h1 h2
    exact parseLoop_char emit tc rest stack acc h1 h2
  · intro emit tc
    cases emit <;> cases tc <;> decide

/-- Witness for claim C10: a literal `]` and a literal `/` are copied
verbatim. -/
theorem claimC10_witness :
    parseLoop true true (']' :: []) [defaultFrame] [] =
      parseLoop true true [] [defaultFrame] ([] ++ [']']) ∧
    parseLoop true true ('/' :: []) [defaultFrame] [] =
      parseLoop true true [] [defaultFrame] ([] ++ ['/']) :=
  ⟨claimC10_theorem.1 true true ']' [] [defaultFrame] [] (by decide) (by decide),
    claimC10_theorem.1 true true '/' [] [defaultFrame] [] (by decide) (by decide)⟩

/-! Stripping SGR codes from the output (claim C8): suffix facts. -/

theorem tryParseBasicColor_tail {c : Char} {rest r : List Char} {off : Nat}
    (h : tryParseBasicColor (c :: rest) = .ok (off, r)) : r = rest := by
  simp only [tryParseBasicColor] at h
  split at h
  · cases h; rfl
  · cases h

theorem tryParseBasicColor_suffix {s r : List Char} {off : Nat}
    (h : tryParseBasicColor s = .ok (off, r)) : r <:+ s := by
  match s with
  | [] => simp [tryParseBasicColor] at h
  | c :: rest =>
    rw [tryParseBasicColor_tail h]
    exact List.suffix_cons c rest

theorem tryParseHexColor_suffix {s r : List Char} {col : TrueColor}
    (h : tryParseHexColor s = .ok (col, r)) : r <:+ s := by
  match s with
  | [] => simp [tryParseHexColor] at h
  | [_] => simp [tryParseHexColor] at h
  | [_, _] => simp [tryParseHexColor] at h
  | [_, _, _] => simp [tryParseHexColor] at h
  | [_, _, _, _] => simp [tryParseHexColor] at h
  | [_, _, _, _, _] => simp [tryParseHexColor] at h
  | c0 :: c1 :: c2 :: c3 :: c4 :: c5 :: rest =>
    simp only [tryParseHexColor] at h
    split at h
    · cases h
      exact ⟨[c0, c1, c2, c3, c4, c5], rfl⟩
    · cases h

theorem parseOpenTagStep_suffix {c : Char} {rest : List Char} {frame fr : StackFrame}
    {r : List Char} (h : parseOpenTagStep c rest frame = .ok (fr, r)) : r <:+ rest := by
  simp only [parseOpenTagStep] at h
  iterate 16 (all_goals try split at h)
  all_goals cases h
  all_goals try exact List.suffix_refl _
  all_goals rename_i heq
  all_goals first
    | exact (tryParseHexColor_suffix heq).trans (List.suffix_cons _ _)
    | exact tryParseBasicColor_suffix heq
    | exact tryParseHexColor_suffix heq
    | (rw [tryParseBasicColor_tail heq]; try exact List.suffix_refl _)

theorem parseOpenTagBodyF_suffix :
    ∀ (fuel : Nat) (s : List Char) (frame : StackFrame) {fr : StackFrame} {r : List Char},
      parseOpenTagBodyF fuel s frame = .ok (fr, r) → r <:+ s := by
  intro fuel
  induction fuel with
  | zero =>
    intro s frame fr r h
    match s with
    | [] => simp [parseOpenTagBodyF] at h
    | c :: rest => simp [parseOpenTagBodyF] at h
  | succ fuel ih =>
    intro s frame fr r h
    match s with
    | [] => simp [parseOpenTagBodyF] at h
    | c :: rest =>
      simp only [parseOpenTagBodyF] at h
      by_cases h1 : c = ']'
      · simp only [if_pos h1] at h
        split at h
        · cases h
        · cases h
          exact List.suffix_cons _ _
      · simp only [if_neg h1] at h
        split at h
        · rename_i frame2 rest2 heq
          exact ((ih _ _ h).trans (parseOpenTagStep_suffix heq)).trans (List.suffix_cons _ _)
        · cases h

theorem countSlashes_suffix :
    ∀ (s : List Char) {n : Nat} {r : List Char}, countSlashes s = (n, r) → r <:+ s := by
  intro s
  induction s with
  | nil =>
    intro n r h
    simp only [countSlashes] at h
    cases h
    exact List.suffix_refl _
  | cons c rest ih =>
    intro n r h
    simp only [countSlashes] at h
    split at h
    · cases h
      exact (ih rfl).trans (List.suffix_cons c rest)
    · cases h
      exact List.suffix_refl _

theorem closeTagStep_suffix {rest r : List Char} {stack newStack : List StackFrame}
    (h : closeTagStep rest stack = .ok (newStack, r)) : r <:+ rest := by
  simp only [closeTagStep] at h
  split at h
  · rename_i slashCount rest2 heq
    split at h
    · cases h
    · cases h
      exact (List.suffix_cons ']' r).trans (countSlashes_suffix rest heq)
  · cases h

theorem openTagStep_suffix {rest r : List Char} {stack : List StackFrame}
    {merged : StackFrame} (h : openTagStep rest stack = .ok (merged, r)) : r <:+ rest := by
  simp only [openTagStep] at h
  split at h
  · rename_i frame rest2 heq
    split at h
    · cases h
    · cases h
      exact parseOpenTagBodyF_suffix _ _ _ heq
  · cases h

theorem escStep_ok_shape {rest rest2 : List Char} {c2 : Char}
    (h : escStep rest = .ok (c2, rest2)) :
    rest = c2 :: rest2 ∧ (c2 = backslashChar ∨ c2 = '[') := by
  match rest with
  | [] => simp [escStep] at h
  | c :: r =>
    simp only [escStep] at h
    split at h
    · cases h
      rename_i hor
      exact ⟨rfl, by simpa using hor⟩
    · cases h

/-! Character-level facts about emitted SGR sequences. -/

theorem digitChar_ne_m {n : Nat} (h : n < 10) : Char.ofNat (48 + n) ≠ 'm' := by
  interval_cases n <;> decide

theorem natCharsCore_no_m :
    ∀ (fuel n : Nat) (acc : List Char), 'm' ∉ acc → 'm' ∉ natCharsCore fuel n acc := by
  intro fuel
  induction fuel with
  | zero => intro n acc h; simpa [natCharsCore] using h
  | succ fuel ih =>
    intro n acc h
    simp only [natCharsCore]
    split
    · rename_i h10
      intro hmem
      rcases List.mem_cons.mp hmem with hc | hc
      · exact digitChar_ne_m h10 hc.symm
      · exact h hc
    · refine ih (n / 10) _ ?_
      intro hmem
      rcases List.mem_cons.mp hmem with hc | hc
      · exact digitChar_ne_m (Nat.mod_lt _ (by norm_num)) hc.symm
      · exact h hc

theorem natChars_no_m (n : Nat) : 'm' ∉ natChars n :=
  natCharsCore_no_m (n + 1) n [] (by simp)

theorem specFlagSection_no_m {flag : Bool} {code : Char} (hc : code ≠ 'm') :
    'm' ∉ specFlagSection flag code := by
  cases flag <;> simp [specFlagSection]
  exact fun h => hc h.symm

theorem specFgSection_no_m (tc : Bool) (f : StackFrame) : 'm' ∉ specFgSection tc f := by
  simp only [specFgSection]
  split
  · simp [natChars_no_m]
  · split
    · simp [natChars_no_m]
    · simp

theorem specBgSection_no_m (tc : Bool) (f : StackFrame) : 'm' ∉ specBgSection tc f := by
  simp only [specBgSection]
  split
  · simp [natChars_no_m]
  · split
    · simp [natChars_no_m]
    · simp

theorem appendSgrCode_true_shape (tc : Bool) (f : StackFrame) :
    ∃ body : List Char,
      appendSgrCode true tc f = escChar :: '[' :: (body ++ ['m']) ∧ 'm' ∉ body := by
  refine ⟨'0' :: (specFlagSection f.hasBold '1' ++ specFlagSection f.hasDim '2' ++
    specFlagSection f.hasItalic '3' ++ specFlagSection f.hasUnderline '4' ++
    specFlagSection f.hasReverse '7' ++ specFgSection tc f ++ specBgSection tc f), ?_, ?_⟩
  · rw [appendSgrCode_eq_spec, if_pos rfl]
    simp [specSgrCode, specSgrReset]
  · intro hmem
    rcases List.mem_cons.mp hmem with hc | hc
    · simp at hc
    · simp only [List.append_assoc, List.mem_append] at hc
      rcases hc with hc | hc | hc | hc | hc | hc | hc
      · exact specFlagSection_no_m (by decide) hc
      · exact specFlagSection_no_m (by decide) hc
      · exact specFlagSection_no_m (by decide) hc
      · exact specFlagSection_no_m (by decide) hc
      · exact specFlagSection_no_m (by decide) hc
      · exact specFgSection_no_m tc f hc
      · exact specBgSection_no_m tc f hc

theorem appendSgrCode_false (tc : Bool) (f : StackFrame) : appendSgrCode false tc f = [] := rfl

/-- Relation between an output produced with SGR emission enabled and
the corresponding output with emission disabled: the former is the
latter interleaved with complete `ESC [ ... m` sequences whose bodies
contain no `m`. -/
inductive SgrMix : List Char → List Char → Prop
  | nil : SgrMix [] []
  | ch {c : Char} {a b : List Char} : c ≠ escChar → SgrMix a b → SgrMix (c :: a) (c :: b)
  | code {body a b : List Char} : 'm' ∉ body → SgrMix a b →
      SgrMix (escChar :: '[' :: (body ++ 'm' :: a)) b

theorem scanToM_append (body a : List Char) (h : 'm' ∉ body) :
    scanToM (body ++ 'm' :: a) = some a := by
  induction body with
  | nil => simp [scanToM]
  | cons c t ih =>
    have hc : ¬(c = 'm') := fun hc => h (by simp [hc])
    simp only [List.cons_append, scanToM, if_neg hc]
    exact ih fun hm => h (List.mem_cons_of_mem c hm)

theorem escapeAnsi_cons {c : Char} (h : c ≠ escChar) (a : List Char) :
    escapeAnsi (c :: a) = c :: escapeAnsi a := by
  simp only [escapeAnsi, List.length_cons, escapeAnsiF, if_neg h]

theorem escapeAnsi_code (body a : List Char) (h : 'm' ∉ body) :
    escapeAnsi (escChar :: '[' :: (body ++ 'm' :: a)) = escapeAnsi a := by
  simp only [escapeAnsi, List.length_cons, escapeAnsiF, if_pos rfl,
    scanToM_append body a h]
  exact escapeAnsiF_congr _ _ a (by simp; omega) (by omega)

theorem SgrMix_strip {a b : List Char} (h : SgrMix a b) : escapeAnsi a = b := by
  induction h with
  | nil => rfl
  | ch hne _ ih => rw [escapeAnsi_cons hne, ih]
  | code hm _ ih => rw [escapeAnsi_code _ _ hm, ih]

theorem SgrMix_noEsc {a b : List Char} (h : SgrMix a b) : escChar ∉ b := by
  induction h with
  | nil => simp
  | ch hne _ ih =>
    intro hm
    rcases List.mem_cons.mp hm with hc | hc
    · exact hne hc.symm
    · exact ih hc
  | code _ _ ih => exact ih

theorem noEsc_escapeAnsi : ∀ {b : List Char}, escChar ∉ b → escapeAnsi b = b := by
  intro b
  induction b with
  | nil => intro _; rfl
  | cons c t ih =>
    intro h
    have hc : c ≠ escChar := fun hc => h (by simp [hc])
    rw [escapeAnsi_cons hc, ih fun hm => h (List.mem_cons_of_mem c hm)]

theorem SgrMix_append_ch {a b : List Char} (c : Char) (hc : c ≠ escChar) (h : SgrMix a b) :
    SgrMix (a ++ [c]) (b ++ [c]) := by
  induction h with
  | nil => exact SgrMix.ch hc SgrMix.nil
  | ch hne _ ih => exact SgrMix.ch hne ih
  | code hm _ ih => simpa using SgrMix.code hm ih

theorem SgrMix_append_code {a b : List Char} (body : List Char) (hm : 'm' ∉ body)
    (h : SgrMix a b) : SgrMix (a ++ (escChar :: '[' :: (body ++ ['m']))) b := by
  induction h with
  | nil => simpa using SgrMix.code hm SgrMix.nil
  | ch hne _ ih => exact SgrMix.ch hne ih
  | code hm2 _ ih => simpa using SgrMix.code hm2 ih

theorem parse_strip_sim (tc : Bool) :
    ∀ (fuel : Nat) (s : List Char), s.length ≤ fuel →
      ∀ (stack : List StackFrame) (accE accD : List Char),
        escChar ∉ s → SgrMix accE accD →
        (∃ e, parseLoop true tc s stack accE = .error e ∧
          parseLoop false tc s stack accD = .error e) ∨
        (∃ oe od, parseLoop true tc s stack accE = .ok oe ∧
          parseLoop false tc s stack accD = .ok od ∧ SgrMix oe od) := by
  intro fuel
  induction fuel with
  | zero =>
    intro s hlen stack accE accD hesc hmix
    cases s with
    | nil =>
      rw [parseLoop_nil, parseLoop_nil]
      by_cases hd : stack.length > 1
      · exact .inl ⟨_, by rw [if_pos hd], by rw [if_pos hd]⟩
      · exact .inr ⟨accE, accD, by rw [if_neg hd], by rw [if_neg hd], hmix⟩
    | cons c rest => simp at hlen
  | succ fuel ih =>
    intro s hlen stack accE accD hesc hmix
    cases s with
    | nil =>
      rw [parseLoop_nil, parseLoop_nil]
      by_cases hd : stack.length > 1
      · exact .inl ⟨_, by rw [if_pos hd], by rw [if_pos hd]⟩
      · exact .inr ⟨accE, accD, by rw [if_neg hd], by rw [if_neg hd], hmix⟩
    | cons c rest =>
      have hescr : escChar ∉ rest := fun hm => hesc (List.mem_cons_of_mem c hm)
      have hcne : c ≠ escChar := fun hc => hesc (by simp [hc])
      simp only [List.length_cons] at hlen
      by_cases hb : c = backslashChar
      · subst hb
        cases hstep : escStep rest with
        | ok p =>
          obtain ⟨c2, rest2⟩ := p
          obtain ⟨hshape, hc2⟩ := escStep_ok_shape hstep
          have hc2ne : c2 ≠ escChar := by
            rcases hc2 with h | h <;> subst h <;> decide
          have hesc2 : escChar ∉ rest2 :=
            fun hm => hescr (hshape ▸ List.mem_cons_of_mem c2 hm)
          rw [parseLoop_escape_ok true tc stack accE hstep,
            parseLoop_escape_ok false tc stack accD hstep]
          refine ih rest2 ?_ stack _ _ hesc2 (SgrMix_append_ch c2 hc2ne hmix)
          have := escStep_length hstep
          omega
        | error e =>
          exact .inl ⟨e, parseLoop_escape_err true tc stack accE hstep,
            parseLoop_escape_err false tc stack accD hstep⟩
      · by_cases hbr : c = '['
        · subst hbr
          by_cases hslash : ∃ rt : List Char, rest = '/' :: rt
          · obtain ⟨rt, rfl⟩ := hslash
            cases hcl : closeTagStep ('/' :: rt) stack with
            | ok p =>
              obtain ⟨newStack, rest2⟩ := p
              have hesc2 : escChar ∉ rest2 :=
                fun hm => hescr ((closeTagStep_suffix hcl).subset hm)
              obtain ⟨body, hbody, hm⟩ :=
                appendSgrCode_true_shape tc (newStack.headD defaultFrame)
              rw [parseLoop_close_ok true tc accE hcl, parseLoop_close_ok false tc accD hcl,
                appendSgrCode_false, List.append_nil, hbody]
              refine ih rest2 ?_ newStack _ _ hesc2 (SgrMix_append_code body hm hmix)
              have := closeTagStep_length hcl
              omega
            | error e =>
              exact .inl ⟨e, parseLoop_close_err true tc accE hcl,
                parseLoop_close_err false tc accD hcl⟩
          · have hns : ∀ t : List Char, rest ≠ '/' :: t := fun t ht => hslash ⟨t, ht⟩
            cases hop : openTagStep rest stack with
            | ok p =>
              obtain ⟨merged, rest2⟩ := p
              have hesc2 : escChar ∉ rest2 :=
                fun hm => hescr ((openTagStep_suffix hop).subset hm)
              obtain ⟨body, hbody, hm⟩ := appendSgrCode_true_shape tc merged
              rw [parseLoop_open_ok true tc accE hns hop,
                parseLoop_open_ok false tc accD hns hop,
                appendSgrCode_false, List.append_nil, hbody]
              refine ih rest2 ?_ (merged :: stack) _ _ hesc2 (SgrMix_append_code body hm hmix)
              have := openTagStep_length hop
              omega
            | error e =>
              exact .inl ⟨e, parseLoop_open_err true tc accE hns hop,
                parseLoop_open_err false tc accD hns hop⟩
        · rw [parseLoop_char true tc rest stack accE hb hbr,
            parseLoop_char false tc rest stack accD hb hbr]
          exact ih rest (by omega) stack _ _ hescr (SgrMix_append_ch c hcne hmix)

/-- Claim C8 fails on the code as stated: for the successfully parsing
input `ESC \[[!]A[/]m` (which contains a literal ESC character), the
ANSI-stripped output with emission enabled differs from the
ANSI-stripped output with emission disabled. -/
theorem claimC8_counterexample :
    (parse ("\x1b\\[[!]A[/]m".data) true true).isOk = true ∧
    (parse ("\x1b\\[[!]A[/]m".data) false true).isOk = true ∧
    (parse ("\x1b\\[[!]A[/]m".data) true true).map escapeAnsi ≠
      (parse ("\x1b\\[[!]A[/]m".data) false true).map escapeAnsi := by
  refine ⟨?_, ?_, ?_⟩ <;> decide

/-- Claim C8 amended: for every markup input containing no literal ESC
character that parses successfully, applying the ANSI-stripping
transform to the output produced with code emission enabled yields
exactly the same text as applying it to the output produced with code
emission disabled. -/
theorem claimC8_theorem (s : List Char) (tc : Bool) (oe od : List Char)
    (hesc : escChar ∉ s) (he : parse s true tc = .ok oe) (hd : parse s false tc = .ok od) :
    escapeAnsi oe = escapeAnsi od := by
  simp only [parse] at he hd
  rcases parse_strip_sim tc s.length s (Nat.le_refl _) [defaultFrame] [] [] hesc SgrMix.nil
    with ⟨e, hee, _⟩ | ⟨oe2, od2, hee, hdd, hmix⟩
  · rw [he] at hee
    cases hee
  · rw [he] at hee
    rw [hd] at hdd
    cases hee
    cases hdd
    rw [SgrMix_strip hmix, noEsc_escapeAnsi (SgrMix_noEsc hmix)]

/-- Witness for claim C8 at the ESC-free input `[r]A[/]`. -/
theorem claimC8_witness :
    escapeAnsi ("\x1b[0;31mA\x1b[0m".data) = escapeAnsi ("A".data) :=
  claimC8_theorem ("[r]A[/]".data) true ("\x1b[0;31mA\x1b[0m".data) ("A".data)
    (by decide) (by decide) (by decide)

end Mint
